import Mathlib

/-!
Verification development for the yt-agent job orchestration core
(src/handlers.rs, src/models.rs).

The shallow embedding below translates, from the source:
* the `DownloadStatus` record (models.rs);
* the admission check-and-insert block of `start_download` (handlers.rs 98-105);
* the progress-line regex `YTDLP_REGEX` (handlers.rs 24-26), embedded as an
  executable matcher with the same greedy, leftmost semantics on the ASCII
  fragment of the character classes involved;
* the observation, finalization and failure updates of `run_download_task`
  and `update_status_to_failed` (handlers.rs 123-201, 267-273);
* a small-step transition system describing the interleavings the program
  can produce: admissions insert a fresh record and spawn one supervising
  task; a supervising task performs a sequence of progress observations
  followed by exactly one finalization (normal exit, or spawn/wait failure).

Rust `f64` values are modelled as exact rationals: every claim below is about
decimal values threaded through parsing, not about binary rounding, and the
percentage tokens involved are short decimal literals.
-/

/-- models.rs `DownloadStatus`: the per-job record held in the shared map.
`status` is a free string in the source; the reachable values are
"starting", "downloading", "completed", "failed". -/
structure DownloadStatus where
  status : String
  progress : ℚ
  eta : String
  speed : String
  error : Option String
deriving DecidableEq

/-- Rust `Default` for `DownloadStatus`: empty strings, 0.0, `None`. -/
def DownloadStatus.deflt : DownloadStatus :=
  { status := (""), progress := 0, eta := (""), speed := (""), error := none }

/-- The record inserted by `start_download`:
`DownloadStatus { status: "starting", ..Default::default() }`. -/
def starting_record : DownloadStatus :=
  { DownloadStatus.deflt with status := ("starting") }

/-- The captures of `YTDLP_REGEX`: groups `progress`, `size`, `speed`
(optional) and `eta`, as strings. -/
structure Captures where
  progress : String
  size : String
  speed : Option String
  eta : String
deriving DecidableEq

/-- Regex class `\s` (ASCII fragment: space, tab, LF, VT, FF, CR). -/
def isWS (c : Char) : Bool :=
  c.toNat = 32 || c.toNat = 9 || c.toNat = 10 || c.toNat = 11 || c.toNat = 13 || c.toNat = 12

/-- Regex class `[\d\.]` of the `progress` group (ASCII fragment). -/
def progClass (c : Char) : Bool := c.isDigit || c = '.'

/-- Regex class `[\d\.\w/]` of the `size` and `speed` groups (ASCII fragment). -/
def sizeClass (c : Char) : Bool := c.isDigit || c = '.' || c.isAlphanum || c = '_' || c = '/'

/-- Regex class `[\d:]` of the `eta` group. -/
def etaClass (c : Char) : Bool := c.isDigit || c = ':'

/-- Consume an exact literal; return the rest of the input on success. -/
def lit : List Char → List Char → Option (List Char)
  | [], cs => some cs
  | _ :: _, [] => none
  | l :: ls, c :: cs => if c = l then lit ls cs else none

/-- Greedy `class+`: the maximal nonempty run of characters in `p`,
with the rest of the input. -/
def takeClass1 (p : Char → Bool) (cs : List Char) : Option (List Char × List Char) :=
  let tk := cs.takeWhile p
  if tk.isEmpty then none else some (tk, cs.dropWhile p)

/-- Greedy `\s+`. -/
def ws1 (cs : List Char) : Option (List Char) :=
  (takeClass1 isWS cs).map Prod.snd

/-- The optional clause `(?:\s+at\s+(?P<speed>[\d\.\w/]+))?`.
Committing to it when it succeeds is faithful to the regex: the literal
after the whitespace run is either "at" (clause present) or "ETA"
(clause absent), so exactly one of the alternatives can ever apply. -/
def tryAtClause (cs : List Char) : Option (List Char × List Char) :=
  (ws1 cs).bind fun cs1 =>
  (lit ['a', 't'] cs1).bind fun cs2 =>
  (ws1 cs2).bind fun cs3 =>
  takeClass1 sizeClass cs3

/-- `~?\s*`: skip one optional tilde, then any whitespace.  The tilde and
whitespace are disjoint from the size class that follows, so committing to
them is faithful to the greedy regex. -/
def tildeSkip (cs : List Char) : List Char :=
  (if cs.head? = some '~' then cs.tail else cs).dropWhile isWS

/-- The result of the optional speed clause at a given point: the captured
speed string (when the clause matched) and the rest of the input. -/
def speedSplit (cs : List Char) : Option String × List Char :=
  match tryAtClause cs with
  | some x => (some (String.mk x.1), x.2)
  | none => (none, cs)

/-- `YTDLP_REGEX` (handlers.rs 24-26) matched at the start of `cs`:
the pattern is a plain sequence of literals and greedy classes, each class
disjoint from the token that follows it, so greedy matching without
backtracking has exactly the regex semantics here. -/
def matchAt (cs : List Char) : Option Captures :=
  (lit (String.data ("[download]")) cs).bind fun cs0 =>
  (ws1 cs0).bind fun cs1 =>
  (takeClass1 progClass cs1).bind fun pr =>
  (lit ['%'] pr.2).bind fun cs2 =>
  (ws1 cs2).bind fun cs3 =>
  (lit ['o', 'f'] cs3).bind fun cs4 =>
  (ws1 cs4).bind fun cs5 =>
  (takeClass1 sizeClass (tildeSkip cs5)).bind fun sz =>
  (ws1 (speedSplit sz.2).2).bind fun cs6 =>
  (lit ['E', 'T', 'A'] cs6).bind fun cs7 =>
  (ws1 cs7).bind fun cs8 =>
  (takeClass1 etaClass cs8).map fun et =>
  { progress := String.mk pr.1, size := String.mk sz.1,
    speed := (speedSplit sz.2).1, eta := String.mk et.1 }

/-- `Regex::captures`: the leftmost position at which the pattern matches,
with the captures the greedy match produces there. -/
def findMatch : List Char → Option Captures
  | [] => matchAt []
  | c :: cs =>
    match matchAt (c :: cs) with
    | some r => some r
    | none => findMatch cs

/-- Value of a digit string read in base 10. -/
def natOfDigits (l : List Char) : ℕ :=
  l.foldl (fun a c => 10 * a + (c.toNat - 48)) 0

/-- Rust `str::parse::<f64>` restricted to the alphabet of the `progress`
capture group, which is `[\d\.]+`: such a string parses exactly when it has
at most one dot and at least one digit ("45.2", "100", "5.", ".5" parse;
"1.2.3", "...", "." do not).  The value is returned as an exact rational. -/
def parse_f64 (s : String) : Option ℚ :=
  let cs := s.data
  let ip := cs.takeWhile Char.isDigit
  match cs.dropWhile Char.isDigit with
  | [] => if ip.isEmpty then none else some (mkRat (natOfDigits ip) 1)
  | '.' :: frac =>
    if frac.all Char.isDigit && (!ip.isEmpty || !frac.isEmpty) then
      some (mkRat (natOfDigits (ip ++ frac)) (10 ^ frac.length))
    else none
  | _ :: _ => none

/-- The registry: handlers keep a `HashMap<String, DownloadStatus>`; we model
it extensionally as a map from keys to optional records. -/
abbrev Registry := String → Option DownloadStatus

/-- Pointwise update of a function out of `String` at one key. -/
def upd {α : Type} (f : String → α) (k : String) (v : α) : String → α :=
  fun x => if x = k then v else f x

/-- The in-flight test of `start_download` (handlers.rs 101):
`matches!(map.get(&key), Some(s) if s.status == "downloading" || s.status == "starting")`. -/
def in_flight : Option DownloadStatus → Bool
  | some s => s.status == ("downloading") || s.status == ("starting")
  | none => false

/-- The error message of the duplicate-admission rejection (handlers.rs 102). -/
def dup_msg : String := "A download for this URL is already in progress."

/-- The admission check-and-insert block of `start_download`
(handlers.rs 98-105): under the map lock, reject if the key holds an
in-flight record (leaving the map untouched), else insert a fresh
`starting` record.  Returns the outcome and the map after the block. -/
def start_download (m : Registry) (k : String) : Except String Unit × Registry :=
  if in_flight (m k) then (Except.error dup_msg, m)
  else (Except.ok (), upd m k (some starting_record))

/-- `map.get_mut(key)` update pattern: apply `f` to the record when the key
is present, no-op otherwise. -/
def updateKey (m : Registry) (k : String) (f : DownloadStatus → DownloadStatus) : Registry :=
  match m k with
  | some st => upd m k (some (f st))
  | none => m

/-- The progress observation of `run_download_task` (handlers.rs 167-175),
applied to a record when a stdout line matches `YTDLP_REGEX`: set status
"downloading", parse the percentage (defaulting to 0.0 on parse failure),
copy `eta` and `speed` (empty when the group is absent). -/
def observe_progress (st : DownloadStatus) (c : Captures) : DownloadStatus :=
  { st with
    status := ("downloading")
    progress := (parse_f64 c.progress).getD 0
    eta := c.eta
    speed := c.speed.getD ("") }

/-- The `(final_status_str, final_error)` pair of handlers.rs 187-193. -/
def finalize_outcome (success : Bool) (stderr : String) : String × Option String :=
  if success then (("completed"), none) else (("failed"), some stderr)

/-- The finalization of `run_download_task` (handlers.rs 195-200): write the
final status and error, then force progress to 100 when completed. -/
def finalize_record (st : DownloadStatus) (success : Bool) (stderr : String) : DownloadStatus :=
  let o := finalize_outcome success stderr
  let st1 := { st with status := o.1, error := o.2 }
  if st1.status = ("completed") then { st1 with progress := 100 } else st1

/-- `update_status_to_failed` (handlers.rs 267-273), lifted to the map. -/
def update_status_to_failed (m : Registry) (k : String) (msg : String) : Registry :=
  updateKey m k (fun st => { st with status := ("failed"), error := some msg })

/-- The message built at handlers.rs 158 when `cmd.spawn()` fails. -/
def spawn_fail_msg (e : String) : String := "Failed to start yt-dlp process: " ++ e

/-- The ways a supervising task ends: a process exit observed by
`wait_with_output` (handlers.rs 179-200), or a spawn/wait error routed
through `update_status_to_failed` (handlers.rs 155-161, 181-184). -/
inductive FinOp where
  | exit (success : Bool) (stderr : String)
  | procErr (msg : String)
deriving DecidableEq

/-- One registry mutation performed by a supervising task. -/
inductive TaskOp where
  | observe (c : Captures)
  | fin (f : FinOp)
deriving DecidableEq

/-- A supervising task's remaining program of registry mutations. -/
abbrev Prog := List TaskOp

/-- The shape of every program `run_download_task` can execute: a sequence
of progress observations followed by exactly one finalization.  The
spawn-failure path is the instance with no observations and a `procErr`
finalization; a suffix of a well-formed program that still has its
finalization is again of this shape. -/
def wf_prog (p : Prog) : Prop :=
  ∃ (obs : List Captures) (f : FinOp), p = obs.map TaskOp.observe ++ [TaskOp.fin f]

/-- The program of the spawn-failure path (handlers.rs 155-161): one
failure finalization, no observations, no output read. -/
def spawn_fail_prog (e : String) : Prog :=
  [TaskOp.fin (FinOp.procErr (spawn_fail_msg e))]

/-- Apply one task operation to the registry, exactly as the source does:
every branch uses the `get_mut` no-op-if-absent pattern. -/
def apply_op (m : Registry) (k : String) : TaskOp → Registry
  | TaskOp.observe c => updateKey m k (fun st => observe_progress st c)
  | TaskOp.fin (FinOp.exit ok err) => updateKey m k (fun st => finalize_record st ok err)
  | TaskOp.fin (FinOp.procErr msg) => update_status_to_failed m k msg

/-- Global state: the shared map plus, per key, the programs of the
supervising tasks still running for that key. -/
structure SysState where
  reg : Registry
  tasks : String → List Prog

/-- The state at server start: empty map, no tasks. -/
def init_state : SysState := ⟨fun _ => none, fun _ => []⟩

/-- Labels naming which source operation a step performs. -/
inductive Label where
  | submitOk (k : String)
  | submitReject (k : String)
  | taskStep (k : String) (op : TaskOp)
deriving DecidableEq

/-- Interleaving semantics of the system, one registry mutation per step:
a successful admission runs the `start_download` block and spawns one
well-formed task; a rejected admission changes nothing; a task step runs
that task's next registry mutation (the task disappears after its last). -/
inductive Step : SysState → Label → SysState → Prop where
  | submit_ok {s : SysState} {k : String} {p : Prog}
      (hin : in_flight (s.reg k) = false) (hwf : wf_prog p) :
      Step s (Label.submitOk k)
        ⟨(start_download s.reg k).2, upd s.tasks k (p :: s.tasks k)⟩
  | submit_reject {s : SysState} {k : String}
      (hin : in_flight (s.reg k) = true) :
      Step s (Label.submitReject k) s
  | task_step {s : SysState} {k : String} {a : TaskOp} {r : Prog} {u v : List Prog}
      (h : s.tasks k = u ++ (a :: r) :: v) :
      Step s (Label.taskStep k a)
        ⟨apply_op s.reg k a, upd s.tasks k (if r.isEmpty then u ++ v else u ++ r :: v)⟩

/-- States reachable from server start. -/
inductive Reachable : SysState → Prop where
  | init : Reachable init_state
  | step {s : SysState} {l : Label} {s' : SysState} :
      Reachable s → Step s l s' → Reachable s'

/-- A record's status is one of the four reachable values, and its error
field is populated exactly in the failed one. -/
def record_inv (st : DownloadStatus) : Prop :=
  (st.status = ("starting") ∧ st.error = none) ∨
  (st.status = ("downloading") ∧ st.error = none) ∨
  (st.status = ("completed") ∧ st.error = none) ∨
  (st.status = ("failed") ∧ ∃ e, st.error = some e)

/-- Terminal statuses. -/
def terminal (st : DownloadStatus) : Prop :=
  st.status = ("completed") ∨ st.status = ("failed")

/-- In-flight statuses. -/
def active (st : DownloadStatus) : Prop :=
  st.status = ("starting") ∨ st.status = ("downloading")

/-- Per-key system invariant: records satisfy `record_inv`; either no task
runs for the key and any record is terminal, or exactly one well-formed
task runs and the record exists and is in flight. -/
def key_inv (s : SysState) (k : String) : Prop :=
  (∀ st, s.reg k = some st → record_inv st) ∧
  ((s.tasks k = [] ∧ ∀ st, s.reg k = some st → terminal st) ∨
   (∃ p, s.tasks k = [p] ∧ wf_prog p ∧ ∃ st, s.reg k = some st ∧ active st))

/-- The status changes C2 literally enumerates: forward along
Starting → Downloading → completion, with only Starting → Failed as a
direct jump. -/
def spec_allowed (a b : String) : Prop :=
  (a = ("starting") ∧ b = ("downloading")) ∨
  (a = ("downloading") ∧ b = ("completed")) ∨
  (a = ("downloading") ∧ b = ("failed")) ∨
  (a = ("starting") ∧ b = ("failed"))

/-- The status changes the code actually performs (amended C2): also
Starting → Completed directly, when the process exits successfully before
any progress line matched. -/
def allowed_change (a b : String) : Prop :=
  (a = ("starting") ∧ b = ("downloading")) ∨
  (a = ("starting") ∧ b = ("completed")) ∨
  (a = ("starting") ∧ b = ("failed")) ∨
  (a = ("downloading") ∧ b = ("completed")) ∨
  (a = ("downloading") ∧ b = ("failed"))

/-- Concrete demonstration line of C7 (spec §8). -/
def line45 : String := "[download]  45.2% of ~10.00MiB at 1.5MiB/s ETA 00:07"

/-- Concrete ETA-less line of C8 (spec §8). -/
def line100 : String := "[download]  100% of 20.00MiB"

/-- A line whose percentage token `1.2.3` matches `[\d\.]+` but fails
`f64` parsing. -/
def line123 : String := "[download] 1.2.3% of 10MiB at 1MiB/s ETA 00:07"

/-- A line reporting a percentage above 100. -/
def line150 : String := "[download] 150.5% of 10MiB at 1MiB/s ETA 00:07"

/-- Captures of `line123` under `YTDLP_REGEX`. -/
def caps123 : Captures :=
  { progress := ("1.2.3"), size := ("10MiB"), speed := some ("1MiB/s"), eta := ("00:07") }

/-- Captures of `line150` under `YTDLP_REGEX`. -/
def caps150 : Captures :=
  { progress := ("150.5"), size := ("10MiB"), speed := some ("1MiB/s"), eta := ("00:07") }

/-- A task that finalizes successfully without ever observing progress. -/
def cexProg : Prog := [TaskOp.fin (FinOp.exit true (""))]

/-- State after admitting key "u" at server start and spawning `cexProg`. -/
def cexS1 : SysState :=
  ⟨(start_download init_state.reg ("u")).2,
   upd init_state.tasks ("u") (cexProg :: init_state.tasks ("u"))⟩

/-- State after `cexProg` runs its single finalization. -/
def cexS2 : SysState :=
  ⟨apply_op cexS1.reg ("u") (TaskOp.fin (FinOp.exit true (""))),
   upd cexS1.tasks ("u") ([] ++ [])⟩

/-! ## Basic lemmas about the map operations -/

theorem upd_self {α : Type} (f : String → α) (k : String) (v : α) : upd f k v k = v := by
  simp [upd]

theorem upd_other {α : Type} (f : String → α) (k : String) (v : α) (x : String)
    (h : x ≠ k) : upd f k v x = f x := by
  simp [upd, h]

theorem updateKey_self (m : Registry) (k : String) (f : DownloadStatus → DownloadStatus)
    (st : DownloadStatus) (h : m k = some st) : updateKey m k f k = some (f st) := by
  unfold updateKey
  rw [h]
  exact upd_self ..

theorem updateKey_other (m : Registry) (k : String) (f : DownloadStatus → DownloadStatus)
    (x : String) (h : x ≠ k) : updateKey m k f x = m x := by
  unfold updateKey
  cases hm : m k with
  | none => rfl
  | some st => exact upd_other m k (some (f st)) x h

theorem apply_op_other (m : Registry) (k : String) (a : TaskOp) (x : String) (h : x ≠ k) :
    apply_op m k a x = m x := by
  cases a with
  | observe c => exact updateKey_other m k _ x h
  | fin f =>
    cases f with
    | exit ok err => exact updateKey_other m k _ x h
    | procErr msg => exact updateKey_other m k _ x h

theorem start_download_accept (m : Registry) (k : String) (h : in_flight (m k) = false) :
    start_download m k = (Except.ok (), upd m k (some starting_record)) := by
  simp [start_download, h]

theorem start_download_reject (m : Registry) (k : String) (h : in_flight (m k) = true) :
    start_download m k = (Except.error dup_msg, m) := by
  simp [start_download, h]

theorem in_flight_of_active (st : DownloadStatus) (h : active st) :
    in_flight (some st) = true := by
  rcases h with h | h <;> simp [in_flight, h]

theorem in_flight_of_terminal (st : DownloadStatus) (h : terminal st) :
    in_flight (some st) = false := by
  rcases h with h | h <;> simp [in_flight, h]

theorem terminal_of_not_in_flight (st : DownloadStatus) (hr : record_inv st)
    (h : in_flight (some st) = false) : terminal st := by
  rcases hr with ⟨h1, _⟩ | ⟨h1, _⟩ | ⟨h1, _⟩ | ⟨h1, _⟩
  · rw [in_flight, h1] at h; simp at h
  · rw [in_flight, h1] at h; simp at h
  · exact Or.inl h1
  · exact Or.inr h1

theorem record_inv_active_error (st : DownloadStatus) (hr : record_inv st)
    (h : active st) : st.error = none := by
  rcases hr with ⟨_, h2⟩ | ⟨_, h2⟩ | ⟨h1, h2⟩ | ⟨h1, h2⟩
  · exact h2
  · exact h2
  · exact h2
  · rcases h with h | h <;> rw [h1] at h <;> simp at h

/-! ## Record-level facts about the source operations -/

theorem finalize_record_true (st : DownloadStatus) (err : String) :
    finalize_record st true err =
      { st with status := ("completed"), error := none, progress := 100 } := by
  simp [finalize_record, finalize_outcome]

theorem finalize_record_false (st : DownloadStatus) (err : String) :
    finalize_record st false err = { st with status := ("failed"), error := some err } := by
  simp [finalize_record, finalize_outcome]

theorem record_inv_starting : record_inv starting_record :=
  Or.inl ⟨rfl, rfl⟩

theorem record_inv_observe (st : DownloadStatus) (c : Captures) (h : st.error = none) :
    record_inv (observe_progress st c) :=
  Or.inr (Or.inl ⟨rfl, h⟩)

theorem record_inv_finalize (st : DownloadStatus) (ok : Bool) (err : String) :
    record_inv (finalize_record st ok err) := by
  cases ok with
  | true => rw [finalize_record_true]; exact Or.inr (Or.inr (Or.inl ⟨rfl, rfl⟩))
  | false => rw [finalize_record_false]; exact Or.inr (Or.inr (Or.inr ⟨rfl, err, rfl⟩))

theorem record_inv_proc_failed (st : DownloadStatus) (msg : String) :
    record_inv { st with status := ("failed"), error := some msg } :=
  Or.inr (Or.inr (Or.inr ⟨rfl, msg, rfl⟩))

theorem terminal_finalize (st : DownloadStatus) (ok : Bool) (err : String) :
    terminal (finalize_record st ok err) := by
  cases ok with
  | true => rw [finalize_record_true]; exact Or.inl rfl
  | false => rw [finalize_record_false]; exact Or.inr rfl

/-! ## The per-key system invariant and its preservation -/

theorem key_inv_ext {s t : SysState} {k : String}
    (h1 : t.reg k = s.reg k) (h2 : t.tasks k = s.tasks k) (h : key_inv s k) : key_inv t k := by
  unfold key_inv at h ⊢
  rw [h1, h2]
  exact h

theorem singleton_eq_append_cons {α : Type} {q x : α} {u : List α} {v : List α}
    (h : [q] = u ++ x :: v) : u = [] ∧ v = [] ∧ x = q := by
  cases u with
  | nil =>
    rw [List.nil_append] at h
    cases h
    exact ⟨rfl, rfl, rfl⟩
  | cons b bs =>
    rw [List.cons_append] at h
    have h2 := congrArg List.length h
    simp at h2

theorem step_key_inv {s : SysState} {l : Label} {s' : SysState}
    (hall : ∀ k, key_inv s k) (hstep : Step s l s') : ∀ k, key_inv s' k := by
  intro k
  cases hstep with
  | @submit_ok k0 p hin hwf =>
    by_cases hk : k = k0
    · subst hk
      have hsd := start_download_accept s.reg k hin
      have hreg' : (start_download s.reg k).2 k = some starting_record := by
        rw [hsd]; exact upd_self ..
      have htasks0 : s.tasks k = [] := by
        rcases hall k with ⟨_, hA | hB⟩
        · exact hA.1
        · exfalso
          rcases hB with ⟨q, _, _, st, hst, hact⟩
          rw [hst, in_flight_of_active st hact] at hin
          simp at hin
      refine ⟨?_, Or.inr ⟨p, ?_, hwf, starting_record, hreg', Or.inl rfl⟩⟩
      · intro st hst
        have he : some starting_record = some st := by rw [← hreg']; exact hst
        cases he
        exact record_inv_starting
      · show upd s.tasks k (p :: s.tasks k) k = [p]
        rw [upd_self, htasks0]
    · refine key_inv_ext ?_ ?_ (hall k)
      · show (start_download s.reg k0).2 k = s.reg k
        rw [start_download_accept s.reg k0 hin]
        exact upd_other _ _ _ _ hk
      · exact upd_other _ _ _ _ hk
  | @submit_reject k0 hin =>
    exact hall k
  | @task_step k0 a r u v h =>
    by_cases hk : k = k0
    · subst hk
      rcases hall k with ⟨hrec, hA | hB⟩
      · exfalso
        rw [hA.1] at h
        have hlen := congrArg List.length h
        simp at hlen
        omega
      · rcases hB with ⟨q, hq, hwfq, st, hst, hact⟩
        rw [hq] at h
        obtain ⟨hu, hv, hx⟩ := singleton_eq_append_cons h
        subst hu
        subst hv
        rcases hwfq with ⟨obs, f, hqe⟩
        rw [hqe] at hx
        cases obs with
        | nil =>
          rw [List.map_nil, List.nil_append] at hx
          cases hx
          cases f with
          | exit ok err =>
            have hreg' : apply_op s.reg k (TaskOp.fin (FinOp.exit ok err)) k
                = some (finalize_record st ok err) := updateKey_self s.reg k _ st hst
            refine ⟨?_, Or.inl ⟨?_, ?_⟩⟩
            · intro st2 hst2
              have he : some (finalize_record st ok err) = some st2 := by
                rw [← hreg']; exact hst2
              cases he
              exact record_inv_finalize st ok err
            · show upd s.tasks k _ k = []
              rw [upd_self]
              simp
            · intro st2 hst2
              have he : some (finalize_record st ok err) = some st2 := by
                rw [← hreg']; exact hst2
              cases he
              exact terminal_finalize st ok err
          | procErr msg =>
            have hreg' : apply_op s.reg k (TaskOp.fin (FinOp.procErr msg)) k
                = some { st with status := ("failed"), error := some msg } :=
              updateKey_self s.reg k _ st hst
            refine ⟨?_, Or.inl ⟨?_, ?_⟩⟩
            · intro st2 hst2
              have he : some { st with status := ("failed"), error := some msg } = some st2 := by
                rw [← hreg']; exact hst2
              cases he
              exact record_inv_proc_failed st msg
            · show upd s.tasks k _ k = []
              rw [upd_self]
              simp
            · intro st2 hst2
              have he : some { st with status := ("failed"), error := some msg } = some st2 := by
                rw [← hreg']; exact hst2
              cases he
              exact Or.inr rfl
        | cons c obs2 =>
          rw [List.map_cons, List.cons_append] at hx
          cases hx
          have hreg' : apply_op s.reg k (TaskOp.observe c) k
              = some (observe_progress st c) := updateKey_self s.reg k _ st hst
          refine ⟨?_, Or.inr ⟨List.map TaskOp.observe obs2 ++ [TaskOp.fin f], ?_, ?_, ?_⟩⟩
          · intro st2 hst2
            have he : some (observe_progress st c) = some st2 := by
              rw [← hreg']; exact hst2
            cases he
            exact record_inv_observe st c (record_inv_active_error st (hrec st hst) hact)
          · show upd s.tasks k _ k = _
            rw [upd_self]
            simp
          · exact ⟨obs2, f, rfl⟩
          · exact ⟨observe_progress st c, hreg', Or.inr rfl⟩
    · refine key_inv_ext ?_ ?_ (hall k)
      · exact apply_op_other s.reg k0 a k hk
      · exact upd_other _ _ _ _ hk

theorem reachable_key_inv {s : SysState} (h : Reachable s) : ∀ k, key_inv s k := by
  induction h with
  | init =>
    intro k
    exact ⟨fun st hst => (nomatch hst), Or.inl ⟨rfl, fun st hst => nomatch hst⟩⟩
  | step _ hs ih =>
    exact step_key_inv ih hs

/-! ## Structural facts about the matcher -/

theorem lit_consumes (l : List Char) : ∀ cs cs', lit l cs = some cs' → cs = l ++ cs' := by
  induction l with
  | nil =>
    intro cs cs' h
    injection h
  | cons x xs ih =>
    intro cs cs' h
    cases cs with
    | nil => cases h
    | cons c cs0 =>
      simp only [lit] at h
      by_cases hc : c = x
      · rw [if_pos hc] at h
        rw [hc, List.cons_append, ← ih cs0 cs' h]
      · rw [if_neg hc] at h
        cases h

theorem takeClass1_consumes (p : Char → Bool) (cs tk rest : List Char)
    (h : takeClass1 p cs = some (tk, rest)) : cs = tk ++ rest := by
  simp only [takeClass1] at h
  split at h
  · cases h
  · injection h with h2
    injection h2 with h3 h4
    rw [← h3, ← h4, List.takeWhile_append_dropWhile]

theorem ws1_consumes (cs cs' : List Char) (h : ws1 cs = some cs') :
    ∃ d, cs = d ++ cs' := by
  unfold ws1 at h
  cases ht : takeClass1 isWS cs with
  | none => rw [ht] at h; cases h
  | some x =>
    rw [ht] at h
    injection h with h2
    rw [← h2]
    exact ⟨x.1, takeClass1_consumes isWS cs x.1 x.2 (by rw [ht])⟩

theorem tail_trans {a b c : List Char} (h1 : ∃ d, a = d ++ b) (h2 : ∃ d, b = d ++ c) :
    ∃ d, a = d ++ c := by
  obtain ⟨d1, e1⟩ := h1
  obtain ⟨d2, e2⟩ := h2
  exact ⟨d1 ++ d2, by rw [e1, e2, List.append_assoc]⟩

theorem tryAtClause_consumes (cs : List Char) (x : List Char × List Char)
    (h : tryAtClause cs = some x) : ∃ d, cs = d ++ x.2 := by
  unfold tryAtClause at h
  rw [Option.bind_eq_some] at h
  obtain ⟨c1, h1, h⟩ := h
  rw [Option.bind_eq_some] at h
  obtain ⟨c2, h2, h⟩ := h
  rw [Option.bind_eq_some] at h
  obtain ⟨c3, h3, h⟩ := h
  refine tail_trans (ws1_consumes cs c1 h1) ?_
  refine tail_trans ⟨_, lit_consumes ['a', 't'] c1 c2 h2⟩ ?_
  refine tail_trans (ws1_consumes c2 c3 h3) ?_
  exact ⟨x.1, takeClass1_consumes sizeClass c3 x.1 x.2 (by rw [h])⟩

theorem speedSplit_consumes (cs : List Char) : ∃ d, cs = d ++ (speedSplit cs).2 := by
  cases ht : tryAtClause cs with
  | none =>
    have h2 : (speedSplit cs).2 = cs := by unfold speedSplit; rw [ht]
    exact ⟨[], by rw [h2, List.nil_append]⟩
  | some x =>
    have h2 : (speedSplit cs).2 = x.2 := by unfold speedSplit; rw [ht]
    rw [h2]
    exact tryAtClause_consumes cs x ht

theorem tildeSkip_consumes (cs : List Char) : ∃ d, cs = d ++ tildeSkip cs := by
  unfold tildeSkip
  by_cases hh : cs.head? = some '~'
  · rw [if_pos hh]
    cases cs with
    | nil => cases hh
    | cons c cs0 =>
      injection hh with hc
      rw [hc]
      exact ⟨'~' :: cs0.takeWhile isWS,
        by rw [List.cons_append, List.tail_cons, List.takeWhile_append_dropWhile]⟩
  · rw [if_neg hh]
    exact ⟨cs.takeWhile isWS, (List.takeWhile_append_dropWhile isWS cs).symm⟩

theorem matchAt_has_ETA (cs : List Char) (c : Captures) (h : matchAt cs = some c) :
    ∃ pre post, cs = pre ++ ('E' :: 'T' :: 'A' :: post) := by
  unfold matchAt at h
  rw [Option.bind_eq_some] at h
  obtain ⟨cs0, h0, h⟩ := h
  rw [Option.bind_eq_some] at h
  obtain ⟨cs1, h1, h⟩ := h
  rw [Option.bind_eq_some] at h
  obtain ⟨pr, hpr, h⟩ := h
  rw [Option.bind_eq_some] at h
  obtain ⟨cs2, h2, h⟩ := h
  rw [Option.bind_eq_some] at h
  obtain ⟨cs3, h3, h⟩ := h
  rw [Option.bind_eq_some] at h
  obtain ⟨cs4, h4, h⟩ := h
  rw [Option.bind_eq_some] at h
  obtain ⟨cs5, h5, h⟩ := h
  rw [Option.bind_eq_some] at h
  obtain ⟨sz, hsz, h⟩ := h
  rw [Option.bind_eq_some] at h
  obtain ⟨cs6, h6, h⟩ := h
  rw [Option.bind_eq_some] at h
  obtain ⟨cs7, h7, h⟩ := h
  have e7 := lit_consumes ['E', 'T', 'A'] cs6 cs7 h7
  have big : ∃ d, cs = d ++ cs6 := by
    refine tail_trans ⟨_, lit_consumes _ cs cs0 h0⟩ ?_
    refine tail_trans (ws1_consumes cs0 cs1 h1) ?_
    refine tail_trans ⟨pr.1, takeClass1_consumes progClass cs1 pr.1 pr.2 (by rw [hpr])⟩ ?_
    refine tail_trans ⟨_, lit_consumes ['%'] pr.2 cs2 h2⟩ ?_
    refine tail_trans (ws1_consumes cs2 cs3 h3) ?_
    refine tail_trans ⟨_, lit_consumes ['o', 'f'] cs3 cs4 h4⟩ ?_
    refine tail_trans (ws1_consumes cs4 cs5 h5) ?_
    refine tail_trans (tildeSkip_consumes cs5) ?_
    refine tail_trans ⟨sz.1, takeClass1_consumes sizeClass (tildeSkip cs5) sz.1 sz.2 (by rw [hsz])⟩ ?_
    refine tail_trans (speedSplit_consumes sz.2) ?_
    exact ws1_consumes (speedSplit sz.2).2 cs6 h6
  obtain ⟨d, e⟩ := big
  exact ⟨d, cs7, by rw [e, e7]; rfl⟩

theorem findMatch_has_ETA (cs : List Char) (c : Captures) (h : findMatch cs = some c) :
    ∃ pre post, cs = pre ++ ('E' :: 'T' :: 'A' :: post) := by
  induction cs with
  | nil => exact matchAt_has_ETA [] c h
  | cons x xs ih =>
    rw [findMatch] at h
    cases hm : matchAt (x :: xs) with
    | some r =>
      rw [hm] at h
      injection h with h2
      exact matchAt_has_ETA (x :: xs) c (by rw [hm, h2])
    | none =>
      rw [hm] at h
      obtain ⟨pre, post, e⟩ := ih h
      exact ⟨x :: pre, post, by rw [List.cons_append, ← e]⟩

theorem parse_f64_nonneg (s : String) (q : ℚ) (h : parse_f64 s = some q) : 0 ≤ q := by
  simp only [parse_f64] at h
  split at h
  · split at h
    · cases h
    · injection h with h2
      rw [← h2, Rat.mkRat_eq_div]
      positivity
  · split at h
    · injection h with h2
      rw [← h2, Rat.mkRat_eq_div]
      positivity
    · cases h
  · cases h

/-! ## Concrete reachable states used as witnesses -/

theorem cexS1_reachable : Reachable cexS1 :=
  Reachable.step Reachable.init
    (Step.submit_ok rfl ⟨[], FinOp.exit true (""), rfl⟩)

theorem cexStep :
    Step cexS1 (Label.taskStep ("u") (TaskOp.fin (FinOp.exit true ("")))) cexS2 :=
  Step.task_step (show cexS1.tasks ("u")
    = [] ++ (TaskOp.fin (FinOp.exit true ("")) :: ([] : Prog)) :: ([] : List Prog) from rfl)

/-! ## The claims -/

/-- C1: for every key k, the admission check of `start_download` fails with
the duplicate error and leaves the map unchanged when the record for k is
`starting` or `downloading`; when no record exists, or the record is
`completed` or `failed`, it succeeds and installs a fresh `starting` record;
a second admission directly after a successful one fails, and an admission
after a finalization succeeds again. -/
theorem C1_admission_dedup (m : Registry) (k : String) :
    ((∃ st, m k = some st ∧ (st.status = ("starting") ∨ st.status = ("downloading"))) →
      (start_download m k).1 = Except.error dup_msg ∧ (start_download m k).2 = m) ∧
    ((m k = none ∨ ∃ st, m k = some st ∧ (st.status = ("completed") ∨ st.status = ("failed"))) →
      (start_download m k).1 = Except.ok () ∧ (start_download m k).2 k = some starting_record) ∧
    ((start_download m k).1 = Except.ok () →
      (start_download (start_download m k).2 k).1 = Except.error dup_msg) ∧
    (∀ st ok err,
      (start_download (upd m k (some (finalize_record st ok err))) k).1 = Except.ok ()) := by
  refine ⟨?_, ?_, ?_, ?_⟩
  · rintro ⟨st, hst, hs⟩
    have hin : in_flight (m k) = true := by rw [hst]; exact in_flight_of_active st hs
    rw [start_download_reject m k hin]
    exact ⟨rfl, rfl⟩
  · intro h
    have hin : in_flight (m k) = false := by
      rcases h with h | ⟨st, hst, hs⟩
      · rw [h]; rfl
      · rw [hst]; exact in_flight_of_terminal st hs
    rw [start_download_accept m k hin]
    exact ⟨rfl, upd_self ..⟩
  · intro h
    by_cases hin : in_flight (m k) = true
    · rw [start_download_reject m k hin] at h
      cases h
    · have hin2 : in_flight (m k) = false := by
        cases hf : in_flight (m k)
        · rfl
        · exact absurd hf hin
      rw [start_download_accept m k hin2]
      have hv : in_flight (upd m k (some starting_record) k) = true := by
        rw [upd_self]
        exact in_flight_of_active starting_record (Or.inl rfl)
      show (start_download (upd m k (some starting_record)) k).1 = Except.error dup_msg
      rw [start_download_reject _ k hv]
  · intro st ok err
    have hv : in_flight (upd m k (some (finalize_record st ok err)) k) = false := by
      rw [upd_self]
      exact in_flight_of_terminal _ (terminal_finalize st ok err)
    rw [start_download_accept _ k hv]

/-- Witness for C1 at a concrete in-flight map. -/
theorem C1_admission_dedup_witness :
    (start_download (upd (fun _ => none) ("u") (some starting_record)) ("u")).1
        = Except.error dup_msg ∧
    (start_download (upd (fun _ => none) ("u") (some starting_record)) ("u")).2
        = upd (fun _ => none) ("u") (some starting_record) :=
  (C1_admission_dedup (upd (fun _ => none) ("u") (some starting_record)) ("u")).1
    ⟨starting_record, upd_self .., Or.inl rfl⟩

/-- C3: finalization maps a zero exit to `completed` with progress forced to
100 and no error, and a nonzero exit to `failed` with the captured stderr
text stored verbatim in the error field. -/
theorem C3_finalize_mapping (st : DownloadStatus) (stderr : String) :
    (finalize_record st true stderr).status = ("completed") ∧
    (finalize_record st true stderr).progress = 100 ∧
    (finalize_record st true stderr).error = none ∧
    (finalize_record st false stderr).status = ("failed") ∧
    (finalize_record st false stderr).error = some stderr := by
  rw [finalize_record_true, finalize_record_false]
  exact ⟨rfl, rfl, rfl, rfl, rfl⟩

/-- C7: on the exact line `[download]  45.2% of ~10.00MiB at 1.5MiB/s ETA 00:07`
the parser yields percent token 45.2 (parsing to the value 45.2), size
`10.00MiB` with the tilde stripped, rate `1.5MiB/s` and eta `00:07`. -/
theorem C7_parse_line :
    findMatch line45.data =
      some { progress := ("45.2"), size := ("10.00MiB"),
             speed := some ("1.5MiB/s"), eta := ("00:07") } ∧
    parse_f64 ("45.2") = some (45.2 : ℚ) := by
  constructor
  · decide
  · rw [show parse_f64 ("45.2") = some (mkRat 452 10) from rfl]
    norm_num [mkRat, Rat.normalize]

/-- C8: on the ETA-less line `[download]  100% of 20.00MiB` the parser
yields no match, and this behavior is consistent: the pattern's ETA clause
is mandatory, so any line without the substring `ETA` can never match. -/
theorem C8_eta_mandatory :
    findMatch line100.data = none ∧
    (∀ (cs : List Char) (c : Captures), findMatch cs = some c →
      ∃ pre post, cs = pre ++ ('E' :: 'T' :: 'A' :: post)) := by
  constructor
  · decide
  · exact findMatch_has_ETA

/-- Witness for C8: the matching demonstration line does contain `ETA`. -/
theorem C8_eta_mandatory_witness :
    ∃ pre post, line45.data = pre ++ ('E' :: 'T' :: 'A' :: post) :=
  C8_eta_mandatory.2 line45.data
    { progress := ("45.2"), size := ("10.00MiB"), speed := some ("1.5MiB/s"), eta := ("00:07") }
    (by decide)

/-- C9: after a successful admission, a spawn failure runs one failure
finalization with the spawn error text and no progress observation; the
record becomes `failed` with the spawn message in its error field, while the
submitter already received the success response at admission time,
independent of the spawn outcome. -/
theorem C9_spawn_failure (m : Registry) (k e : String) (h : in_flight (m k) = false) :
    (start_download m k).1 = Except.ok () ∧
    (∀ op ∈ spawn_fail_prog e, ∀ c, op ≠ TaskOp.observe c) ∧
    update_status_to_failed (start_download m k).2 k (spawn_fail_msg e) k =
      some { starting_record with status := ("failed"), error := some (spawn_fail_msg e) } := by
  rw [start_download_accept m k h]
  refine ⟨rfl, ?_, ?_⟩
  · intro op hop c
    simp [spawn_fail_prog] at hop
    simp [hop]
  · show update_status_to_failed (upd m k (some starting_record)) k (spawn_fail_msg e) k = _
    exact updateKey_self _ k _ starting_record (upd_self ..)

/-- Witness for C9 at the empty map with a concrete OS error text. -/
theorem C9_spawn_failure_witness :
    (start_download (fun _ => none) ("u")).1 = Except.ok () ∧
    (∀ op ∈ spawn_fail_prog ("No such file or directory (os error 2)"),
      ∀ c, op ≠ TaskOp.observe c) ∧
    update_status_to_failed (start_download (fun _ => none) ("u")).2 ("u")
        (spawn_fail_msg ("No such file or directory (os error 2)")) ("u") =
      some { starting_record with status := ("failed"), error := some (spawn_fail_msg ("No such file or directory (os error 2)")) } :=
  C9_spawn_failure (fun _ => none) ("u") ("No such file or directory (os error 2)") rfl

/-- C10: a successful re-admission over a terminal record replaces it with a
fully reset record: status `starting`, progress 0, empty eta and speed, no
error — nothing of the previous record survives. -/
theorem C10_reset_on_readmission (m : Registry) (k : String) (st : DownloadStatus)
    (h : m k = some st) (ht : st.status = ("completed") ∨ st.status = ("failed")) :
    (start_download m k).1 = Except.ok () ∧
    (start_download m k).2 k =
      some { status := ("starting"), progress := 0, eta := (""), speed := (""),
             error := none } := by
  have hin : in_flight (m k) = false := by rw [h]; exact in_flight_of_terminal st ht
  rw [start_download_accept m k hin]
  exact ⟨rfl, upd_self ..⟩

/-- Witness for C10 over a dirty failed record. -/
theorem C10_reset_on_readmission_witness :
    (start_download (upd (fun _ => none) ("u")
        (some { status := ("failed"), progress := (55 : ℚ) / 2, eta := ("00:10"),
                speed := ("1MiB/s"), error := some ("boom") })) ("u")).2 ("u") =
      some { status := ("starting"), progress := 0, eta := (""), speed := (""),
             error := none } :=
  (C10_reset_on_readmission _ ("u") _ (upd_self ..) (Or.inr rfl)).2

/-- C4 counterexample: on `line123` the percentage token `1.2.3` matches the
regex class but fails float parsing, and the code does NOT treat the line as
non-matching: the match succeeds and the observation is applied with the
progress defaulted to 0.0 by `unwrap_or` (handlers.rs 171), refuting the
claim that no progress observation is applied. -/
theorem C4_counterexample :
    findMatch line123.data = some caps123 ∧
    parse_f64 caps123.progress = none ∧
    (observe_progress starting_record caps123).status = ("downloading") ∧
    (observe_progress starting_record caps123).progress = 0 := by
  refine ⟨by decide, by decide, rfl, ?_⟩
  show (parse_f64 caps123.progress).getD 0 = 0
  rw [show parse_f64 caps123.progress = none by decide]
  rfl

/-- C4 amended: on every line whose percentage token matches the regex but
fails float parsing, the observation is still applied: status becomes
`downloading`, progress defaults to 0.0, eta and speed are taken from the
captures; no error is raised. -/
theorem C4_default_zero_amended (cs : List Char) (c : Captures) (st : DownloadStatus)
    (_hm : findMatch cs = some c) (hp : parse_f64 c.progress = none) :
    (observe_progress st c).status = ("downloading") ∧
    (observe_progress st c).progress = 0 ∧
    (observe_progress st c).eta = c.eta ∧
    (observe_progress st c).speed = c.speed.getD ("") := by
  refine ⟨rfl, ?_, rfl, rfl⟩
  show (parse_f64 c.progress).getD 0 = 0
  rw [hp]
  rfl

/-- Witness for the amended C4 at the concrete line `line123`. -/
theorem C4_default_zero_amended_witness :
    (observe_progress starting_record caps123).status = ("downloading") ∧
    (observe_progress starting_record caps123).progress = 0 ∧
    (observe_progress starting_record caps123).eta = caps123.eta ∧
    (observe_progress starting_record caps123).speed = caps123.speed.getD ("") :=
  C4_default_zero_amended line123.data caps123 starting_record (by decide) (by decide)

/-- C5 counterexample: the line reporting `150.5%` matches and the
observation stores progress 150.5 unclamped, violating the claimed upper
bound of 100. -/
theorem C5_counterexample :
    findMatch line150.data = some caps150 ∧
    (100 : ℚ) < (observe_progress starting_record caps150).progress := by
  refine ⟨by decide, ?_⟩
  rw [show (observe_progress starting_record caps150).progress = mkRat 1505 10 from rfl]
  rw [Rat.mkRat_eq_div]
  norm_num

/-- C5 amended: every applied progress observation leaves progress
nonnegative (the percentage token has no sign, and a parse failure defaults
to 0.0), but the code does not clamp to 100. -/
theorem C5_progress_nonneg_amended (cs : List Char) (c : Captures) (st : DownloadStatus)
    (_hm : findMatch cs = some c) : 0 ≤ (observe_progress st c).progress := by
  show 0 ≤ (parse_f64 c.progress).getD 0
  cases hp : parse_f64 c.progress with
  | none => exact le_refl 0
  | some q => exact parse_f64_nonneg c.progress q hp

/-- Witness for the amended C5 at the concrete line `line150`. -/
theorem C5_progress_nonneg_amended_witness :
    0 ≤ (observe_progress starting_record caps150).progress :=
  C5_progress_nonneg_amended line150.data caps150 starting_record (by decide)

/-- C6: in every reachable state, a record's error field is populated if and
only if its status is `failed`. -/
theorem C6_error_iff_failed (s : SysState) (k : String) (st : DownloadStatus)
    (hr : Reachable s) (h : s.reg k = some st) :
    (∃ e, st.error = some e) ↔ st.status = ("failed") := by
  have hrec := (reachable_key_inv hr k).1 st h
  constructor
  · rintro ⟨e, he⟩
    rcases hrec with ⟨_, h2⟩ | ⟨_, h2⟩ | ⟨_, h2⟩ | ⟨h1, _⟩
    · rw [h2] at he; cases he
    · rw [h2] at he; cases he
    · rw [h2] at he; cases he
    · exact h1
  · intro hf
    rcases hrec with ⟨h1, _⟩ | ⟨h1, _⟩ | ⟨h1, _⟩ | ⟨_, h2⟩
    · exact absurd (h1.symm.trans hf) (by decide)
    · exact absurd (h1.symm.trans hf) (by decide)
    · exact absurd (h1.symm.trans hf) (by decide)
    · exact h2

/-- Witness for C6 at the reachable state `cexS1` and its starting record. -/
theorem C6_error_iff_failed_witness :
    ((∃ e, starting_record.error = some e) ↔ starting_record.status = ("failed")) :=
  C6_error_iff_failed cexS1 ("u") starting_record cexS1_reachable rfl

/-- C2 counterexample: a reachable step takes a record directly from
`starting` to `completed` (the process exits 0 before any progress line
matched), a status change outside the set the claim literally allows
(Starting to Downloading, Downloading to Completed or Failed, and only
Starting to Failed directly). -/
theorem C2_counterexample :
    Reachable cexS1 ∧
    Step cexS1 (Label.taskStep ("u") (TaskOp.fin (FinOp.exit true ("")))) cexS2 ∧
    cexS1.reg ("u") = some starting_record ∧
    (∃ st, cexS2.reg ("u") = some st ∧ st.status = ("completed")) ∧
    ¬ spec_allowed ("starting") ("completed") := by
  refine ⟨cexS1_reachable, cexStep, rfl, ?_, ?_⟩
  · refine ⟨finalize_record starting_record true (""), ?_, ?_⟩
    · show apply_op cexS1.reg ("u") (TaskOp.fin (FinOp.exit true (""))) ("u") = _
      exact updateKey_self cexS1.reg ("u") (fun st => finalize_record st true ("")) starting_record rfl
    · rw [finalize_record_true]
  · rintro (⟨h1, h2⟩ | ⟨h1, h2⟩ | ⟨h1, h2⟩ | ⟨h1, h2⟩)
    · exact absurd h2 (by decide)
    · exact absurd h1 (by decide)
    · exact absurd h1 (by decide)
    · exact absurd h2 (by decide)

/-- C2 amended: in every reachable state, a step changing a record's status
either moves it forward — Starting to Downloading, Completed or Failed
directly, or Downloading to Completed or Failed — or is a successful
re-admission of that key overwriting a terminal record with a fresh
starting record.  In particular a terminal record's status never changes
except through a new successful admission. -/
theorem C2_forward_amended (s : SysState) (l : Label) (t : SysState) (k : String)
    (st st2 : DownloadStatus)
    (hr : Reachable s) (hs : Step s l t)
    (h1 : s.reg k = some st) (h2 : t.reg k = some st2)
    (hne : st.status ≠ st2.status) :
    allowed_change st.status st2.status ∨
    (l = Label.submitOk k ∧ terminal st ∧ st2 = starting_record) := by
  have hall := reachable_key_inv hr
  cases hs with
  | @submit_ok k0 p hin hwf =>
    by_cases hk : k = k0
    · subst hk
      right
      have hreg : (start_download s.reg k).2 k = some starting_record := by
        rw [start_download_accept s.reg k hin]; exact upd_self ..
      have he : some starting_record = some st2 := by rw [← hreg]; exact h2
      injection he with he2
      rw [h1] at hin
      exact ⟨rfl, terminal_of_not_in_flight st ((hall k).1 st h1) hin, he2.symm⟩
    · have hsame : (start_download s.reg k0).2 k = s.reg k := by
        rw [start_download_accept s.reg k0 hin]
        exact upd_other _ _ _ _ hk
      have he : s.reg k = some st2 := by rw [← hsame]; exact h2
      rw [h1] at he
      injection he with he2
      exact absurd (congrArg DownloadStatus.status he2) hne
  | @submit_reject k0 hin =>
    rw [h1] at h2
    injection h2 with he2
    exact absurd (congrArg DownloadStatus.status he2) hne
  | @task_step k0 a r u v h =>
    by_cases hk : k = k0
    · subst hk
      rcases (hall k).2 with hA | ⟨q, hq, hwfq, stB, hstB, hact⟩
      · exfalso
        rw [hA.1] at h
        have hlen := congrArg List.length h
        simp at hlen
        omega
      · have hBst : st = stB := by
          have he := hstB.symm.trans h1
          injection he with h3
          exact h3.symm
        left
        cases a with
        | observe c =>
          have hreg : apply_op s.reg k (TaskOp.observe c) k = some (observe_progress stB c) :=
            updateKey_self s.reg k _ stB hstB
          have he : some (observe_progress stB c) = some st2 := by rw [← hreg]; exact h2
          injection he with he2
          have hs2 : st2.status = ("downloading") := by rw [← he2]; rfl
          rcases hact with ha | ha
          · exact Or.inl ⟨by rw [hBst]; exact ha, hs2⟩
          · exact absurd (by rw [hBst, ha, hs2] : st.status = st2.status) hne
        | fin f =>
          cases f with
          | exit ok err =>
            have hreg : apply_op s.reg k (TaskOp.fin (FinOp.exit ok err)) k
                = some (finalize_record stB ok err) := updateKey_self s.reg k _ stB hstB
            have he : some (finalize_record stB ok err) = some st2 := by rw [← hreg]; exact h2
            injection he with he2
            cases ok with
            | true =>
              have hs2 : st2.status = ("completed") := by rw [← he2, finalize_record_true]
              rcases hact with ha | ha
              · exact Or.inr (Or.inl ⟨by rw [hBst]; exact ha, hs2⟩)
              · exact Or.inr (Or.inr (Or.inr (Or.inl ⟨by rw [hBst]; exact ha, hs2⟩)))
            | false =>
              have hs2 : st2.status = ("failed") := by rw [← he2, finalize_record_false]
              rcases hact with ha | ha
              · exact Or.inr (Or.inr (Or.inl ⟨by rw [hBst]; exact ha, hs2⟩))
              · exact Or.inr (Or.inr (Or.inr (Or.inr ⟨by rw [hBst]; exact ha, hs2⟩)))
          | procErr msg =>
            have hreg : apply_op s.reg k (TaskOp.fin (FinOp.procErr msg)) k
                = some { stB with status := ("failed"), error := some msg } :=
              updateKey_self s.reg k _ stB hstB
            have he : some { stB with status := ("failed"), error := some msg } = some st2 := by
              rw [← hreg]; exact h2
            injection he with he2
            have hs2 : st2.status = ("failed") := by rw [← he2]
            rcases hact with ha | ha
            · exact Or.inr (Or.inr (Or.inl ⟨by rw [hBst]; exact ha, hs2⟩))
            · exact Or.inr (Or.inr (Or.inr (Or.inr ⟨by rw [hBst]; exact ha, hs2⟩)))
    · have hsame : apply_op s.reg k0 a k = s.reg k := apply_op_other s.reg k0 a k hk
      have he : s.reg k = some st2 := by rw [← hsame]; exact h2
      rw [h1] at he
      injection he with he2
      exact absurd (congrArg DownloadStatus.status he2) hne

/-- Witness for the amended C2 at the concrete reachable step of `cexS1`. -/
theorem C2_forward_amended_witness :
    allowed_change starting_record.status (finalize_record starting_record true ("")).status ∨
    (Label.taskStep ("u") (TaskOp.fin (FinOp.exit true (""))) = Label.submitOk ("u") ∧
      terminal starting_record ∧ finalize_record starting_record true ("") = starting_record) :=
  C2_forward_amended cexS1 _ cexS2 ("u") starting_record
    (finalize_record starting_record true (""))
    cexS1_reachable cexStep rfl
    (updateKey_self cexS1.reg ("u") (fun st => finalize_record st true ("")) starting_record rfl)
    (by decide)
